import Mathlib

/-!
Verification of the OBJ codec and process-orchestration layer of the
Instant Meshes Blender addon (`instant_meshes_addon/__init__.py`).

Text is modelled line-oriented: a line is a `List Char` (without its
terminating newline), and a file's text is a `List (List Char)`.  Python
float formatting and parsing are modelled over `ℚ`.
-/

namespace InstantMeshes

/-- Whitespace predicate used by Python `str.split()` with no argument
(space, tab, newline, carriage return, vertical tab, form feed). -/
def isSpaceChar (c : Char) : Bool :=
  c == ' ' || c == '\t' || c == '\n' || c == '\r' || c == '\x0b' || c == '\x0c'

/-- Decimal digit predicate (char code between 48 and 57), as used when
modelling Python `float()` / `int()` on decimal literals. -/
def isDigitChar (c : Char) : Bool :=
  decide (48 ≤ c.toNat) && decide (c.toNat ≤ 57)

theorem isDigitChar_toNat {c : Char} (h : isDigitChar c = true) :
    48 ≤ c.toNat ∧ c.toNat ≤ 57 := by
  simp only [isDigitChar, Bool.and_eq_true, decide_eq_true_eq] at h
  exact h

theorem isSpaceChar_eq_false_of_digit {c : Char} (h : isDigitChar c = true) :
    isSpaceChar c = false := by
  obtain ⟨h1, h2⟩ := isDigitChar_toNat h
  simp only [isSpaceChar, Bool.or_eq_false_iff, beq_eq_false_iff_ne, ne_eq]
  refine ⟨⟨⟨⟨⟨?_, ?_⟩, ?_⟩, ?_⟩, ?_⟩, ?_⟩ <;>
    · intro hc; subst hc; exact absurd h1 (by decide)

theorem char_ne_of_toNat_ne {c d : Char} (h : c.toNat ≠ d.toNat) : c ≠ d := by
  intro hcd; exact h (congrArg Char.toNat hcd)

theorem digit_ne_dot {c : Char} (h : isDigitChar c = true) : c ≠ '.' := by
  obtain ⟨h1, _⟩ := isDigitChar_toNat h
  exact char_ne_of_toNat_ne (by intro he; rw [he] at h1; simp at h1)

theorem digit_ne_dash {c : Char} (h : isDigitChar c = true) : c ≠ '-' := by
  obtain ⟨h1, _⟩ := isDigitChar_toNat h
  exact char_ne_of_toNat_ne (by intro he; rw [he] at h1; simp at h1)

theorem digit_ne_plus {c : Char} (h : isDigitChar c = true) : c ≠ '+' := by
  obtain ⟨h1, _⟩ := isDigitChar_toNat h
  exact char_ne_of_toNat_ne (by intro he; rw [he] at h1; simp at h1)

theorem digit_ne_slash {c : Char} (h : isDigitChar c = true) : c ≠ '/' := by
  obtain ⟨h1, _⟩ := isDigitChar_toNat h
  exact char_ne_of_toNat_ne (by intro he; rw [he] at h1; simp at h1)

/-- Value of a list of decimal digit characters, most significant first
(the accumulator fold performed by a decimal parser). -/
def decVal (ds : List Char) : ℕ :=
  ds.foldl (fun a c => a * 10 + (c.toNat - 48)) 0

theorem decVal_nil : decVal [] = 0 := rfl

theorem foldl_dec_from (a : ℕ) (ds : List Char) :
    ds.foldl (fun a c => a * 10 + (c.toNat - 48)) a =
      a * 10 ^ ds.length + decVal ds := by
  induction ds generalizing a with
  | nil => simp [decVal]
  | cons c t ih =>
    have hR : decVal (c :: t) = (0 * 10 + (c.toNat - 48)) * 10 ^ t.length + decVal t := by
      show List.foldl (fun a c => a * 10 + (c.toNat - 48)) (0 * 10 + (c.toNat - 48)) t = _
      exact ih _
    rw [List.foldl_cons, ih, hR, List.length_cons]
    ring

theorem decVal_cons (c : Char) (t : List Char) :
    decVal (c :: t) = (c.toNat - 48) * 10 ^ t.length + decVal t := by
  show List.foldl (fun a c => a * 10 + (c.toNat - 48)) 0 (c :: t) = _
  rw [List.foldl_cons, foldl_dec_from]
  ring

theorem decVal_append_singleton (ds : List Char) (c : Char) :
    decVal (ds ++ [c]) = 10 * decVal ds + (c.toNat - 48) := by
  simp only [decVal, List.foldl_append, List.foldl_cons, List.foldl_nil]
  ring

theorem decVal_replicate_zero_append (j : ℕ) (ds : List Char) :
    decVal (List.replicate j '0' ++ ds) = decVal ds := by
  induction j with
  | zero => simp
  | succ n ih =>
    rw [List.replicate_succ, List.cons_append, decVal_cons, ih]
    norm_num [show ('0').toNat - 48 = 0 by decide]

/-- Fuel-driven decimal digit printer (the fuel makes the recursion
structural; `natDigits` supplies enough fuel). -/
def natDigitsAux : ℕ → ℕ → List Char
  | 0, _ => []
  | fuel + 1, n =>
    if n < 10 then [Nat.digitChar n]
    else natDigitsAux fuel (n / 10) ++ [Nat.digitChar (n % 10)]

/-- Decimal digit characters of a natural number, most significant first.
Models Python `str()` on a nonnegative integer. -/
def natDigits (n : ℕ) : List Char := natDigitsAux (n + 1) n

theorem natDigitsAux_congr : ∀ f₁ f₂ n, n < f₁ → n < f₂ →
    natDigitsAux f₁ n = natDigitsAux f₂ n := by
  intro f₁
  induction f₁ with
  | zero => intro f₂ n h; omega
  | succ g ih =>
    intro f₂ n h1 h2
    cases f₂ with
    | zero => omega
    | succ g₂ =>
      simp only [natDigitsAux]
      by_cases hn : n < 10
      · simp [hn]
      · have hd : n / 10 < g := by omega
        have hd₂ : n / 10 < g₂ := by omega
        simp [hn, ih g₂ (n / 10) hd hd₂]

theorem natDigits_lt {n : ℕ} (h : n < 10) : natDigits n = [Nat.digitChar n] := by
  simp [natDigits, natDigitsAux, h]

theorem natDigits_ge {n : ℕ} (h : 10 ≤ n) :
    natDigits n = natDigits (n / 10) ++ [Nat.digitChar (n % 10)] := by
  have h10 : ¬ n < 10 := by omega
  simp only [natDigits, natDigitsAux, h10, if_false]
  congr 1
  exact natDigitsAux_congr n (n / 10 + 1) (n / 10) (by omega) (by omega)

theorem natDigits_ne_nil (n : ℕ) : natDigits n ≠ [] := by
  by_cases h : n < 10
  · simp [natDigits_lt h]
  · simp [natDigits_ge (by omega : 10 ≤ n)]

theorem digitChar_isDigit {d : ℕ} (h : d < 10) :
    isDigitChar (Nat.digitChar d) = true := by
  interval_cases d <;> decide

theorem digitChar_toNat {d : ℕ} (h : d < 10) :
    (Nat.digitChar d).toNat = 48 + d := by
  interval_cases d <;> decide

theorem natDigits_all_digit (n : ℕ) : ∀ c ∈ natDigits n, isDigitChar c = true := by
  induction n using Nat.strong_induction_on with
  | _ n ih =>
    by_cases h : n < 10
    · rw [natDigits_lt h]
      intro c hc
      simp only [List.mem_singleton] at hc
      subst hc
      exact digitChar_isDigit h
    · rw [natDigits_ge (by omega : 10 ≤ n)]
      intro c hc
      rcases List.mem_append.mp hc with h1 | h2
      · exact ih (n / 10) (by omega) c h1
      · simp only [List.mem_singleton] at h2
        subst h2
        exact digitChar_isDigit (Nat.mod_lt _ (by omega))

theorem decVal_natDigits (n : ℕ) : decVal (natDigits n) = n := by
  induction n using Nat.strong_induction_on with
  | _ n ih =>
    by_cases h : n < 10
    · rw [natDigits_lt h]
      simp [decVal, digitChar_toNat h]
    · rw [natDigits_ge (by omega : 10 ≤ n)]
      rw [decVal_append_singleton, ih (n / 10) (by omega),
        digitChar_toNat (Nat.mod_lt _ (by omega : (0:ℕ) < 10))]
      omega

theorem natDigits_length_le {n k : ℕ} (hk : 1 ≤ k) (h : n < 10 ^ k) :
    (natDigits n).length ≤ k := by
  induction n using Nat.strong_induction_on generalizing k with
  | _ n ih =>
    by_cases hn : n < 10
    · simp only [natDigits_lt hn, List.length_singleton]
      omega
    · rw [natDigits_ge (by omega : 10 ≤ n)]
      have hk2 : 2 ≤ k := by
        by_contra hc
        have : k = 1 := by omega
        subst this
        simp at h
        omega
      have : n / 10 < 10 ^ (k - 1) := by
        have hpow : 10 ^ k = 10 ^ (k - 1) * 10 := by
          conv_lhs => rw [show k = (k - 1) + 1 by omega]
          rw [pow_succ]
        omega
      have := ih (n / 10) (by omega) (by omega : 1 ≤ k - 1) this
      simp only [List.length_append, List.length_singleton]
      omega

theorem takeWhile_append_stop {p : Char → Bool} {xs : List Char} {y : Char}
    (ys : List Char) (hxs : ∀ c ∈ xs, p c = true) (hy : p y = false) :
    (xs ++ y :: ys).takeWhile p = xs := by
  induction xs with
  | nil => simp [List.takeWhile_cons, hy]
  | cons a t ih =>
    have ha : p a = true := hxs a (by simp)
    simp only [List.cons_append, List.takeWhile_cons, ha, if_true]
    rw [ih (fun c hc => hxs c (by simp [hc]))]

theorem dropWhile_append_stop {p : Char → Bool} {xs : List Char} {y : Char}
    (ys : List Char) (hxs : ∀ c ∈ xs, p c = true) (hy : p y = false) :
    (xs ++ y :: ys).dropWhile p = y :: ys := by
  induction xs with
  | nil => simp [List.dropWhile_cons, hy]
  | cons a t ih =>
    have ha : p a = true := hxs a (by simp)
    simp only [List.cons_append, List.dropWhile_cons, ha, if_true]
    exact ih (fun c hc => hxs c (by simp [hc]))

theorem takeWhile_all {p : Char → Bool} {xs : List Char}
    (hxs : ∀ c ∈ xs, p c = true) : xs.takeWhile p = xs := by
  induction xs with
  | nil => rfl
  | cons a t ih =>
    simp only [List.takeWhile_cons, hxs a (by simp), if_true]
    rw [ih (fun c hc => hxs c (by simp [hc]))]

theorem dropWhile_all {p : Char → Bool} {xs : List Char}
    (hxs : ∀ c ∈ xs, p c = true) : xs.dropWhile p = [] := by
  induction xs with
  | nil => rfl
  | cons a t ih =>
    simp only [List.dropWhile_cons, hxs a (by simp), if_true]
    exact ih (fun c hc => hxs c (by simp [hc]))

/-- Split a character list at every separator matching `p`, keeping empty
chunks. Models Python `str.split(sep)` for a one-character separator. -/
def splitOnPChar (p : Char → Bool) : List Char → List (List Char)
  | [] => [[]]
  | c :: cs =>
    if p c then [] :: splitOnPChar p cs
    else
      match splitOnPChar p cs with
      | [] => [[c]]
      | w :: ws => (c :: w) :: ws

theorem splitOnPChar_ne_nil (p : Char → Bool) (cs : List Char) :
    splitOnPChar p cs ≠ [] := by
  cases cs with
  | nil => simp [splitOnPChar]
  | cons c t =>
    simp only [splitOnPChar]
    by_cases h : p c
    · simp [h]
    · simp only [h, if_false]
      rcases hs : splitOnPChar p t with - | ⟨w, ws⟩ <;> simp

theorem splitOnPChar_word {p : Char → Bool} {w : List Char}
    (hw : ∀ c ∈ w, p c = false) : splitOnPChar p w = [w] := by
  induction w with
  | nil => rfl
  | cons a t ih =>
    have ha : p a = false := hw a (by simp)
    simp only [splitOnPChar, ha, Bool.false_eq_true, if_false]
    rw [ih (fun c hc => hw c (by simp [hc]))]

theorem splitOnPChar_word_sep {p : Char → Bool} {w : List Char} {d : Char}
    (rest : List Char) (hw : ∀ c ∈ w, p c = false) (hd : p d = true) :
    splitOnPChar p (w ++ d :: rest) = w :: splitOnPChar p rest := by
  induction w with
  | nil => simp [splitOnPChar, hd]
  | cons a t ih =>
    have ha : p a = false := hw a (by simp)
    have ht := ih (fun c hc => hw c (by simp [hc]))
    simp only [List.cons_append, splitOnPChar, List.append_eq, ha, Bool.false_eq_true,
      if_false, ht]

/-- Whitespace-splitting with empty chunks dropped: models Python
`str.split()` with no argument. -/
def pyWords (cs : List Char) : List (List Char) :=
  (splitOnPChar isSpaceChar cs).filter (fun w => !w.isEmpty)

theorem pyWords_word {w : List Char} (hw : ∀ c ∈ w, isSpaceChar c = false)
    (hne : w ≠ []) : pyWords w = [w] := by
  rw [pyWords, splitOnPChar_word hw]
  simp [hne]

theorem pyWords_word_space {w : List Char} (rest : List Char)
    (hw : ∀ c ∈ w, isSpaceChar c = false) (hne : w ≠ []) :
    pyWords (w ++ ' ' :: rest) = w :: pyWords rest := by
  rw [pyWords, splitOnPChar_word_sep rest hw (by decide)]
  simp [pyWords, hne]

/-- Prefix test on character lists: models Python `str.startswith`. -/
def lineStartsWith : List Char → List Char → Bool
  | _, [] => true
  | [], _ :: _ => false
  | c :: cs, p :: ps => c == p && lineStartsWith cs ps

/-- Substring test on character lists: models the Python `in` operator on
strings. -/
def hasSubstr (pat : List Char) : List Char → Bool
  | [] => lineStartsWith [] pat
  | c :: t => lineStartsWith (c :: t) pat || hasSubstr pat t

theorem lineStartsWith_iff_append (cs pat : List Char) :
    lineStartsWith cs pat = true ↔ ∃ b, cs = pat ++ b := by
  induction pat generalizing cs with
  | nil => simp [lineStartsWith]
  | cons p ps ih =>
    cases cs with
    | nil => simp [lineStartsWith]
    | cons c t =>
      simp only [lineStartsWith, Bool.and_eq_true, beq_iff_eq, ih t,
        List.cons_append, List.cons.injEq]
      constructor
      · rintro ⟨hc, b, hb⟩; exact ⟨b, hc, hb⟩
      · rintro ⟨b, hc, hb⟩; exact ⟨hc, b, hb⟩

theorem hasSubstr_iff (pat s : List Char) :
    hasSubstr pat s = true ↔ ∃ a b, s = a ++ pat ++ b := by
  induction s with
  | nil =>
    simp only [hasSubstr, lineStartsWith_iff_append]
    constructor
    · rintro ⟨b, hb⟩
      exact ⟨[], b, by simpa using hb⟩
    · rintro ⟨a, b, hab⟩
      have := List.append_eq_nil.mp hab.symm
      have h2 := List.append_eq_nil.mp this.1
      exact ⟨[], by simp [h2.2]⟩
  | cons c t ih =>
    simp only [hasSubstr, Bool.or_eq_true, lineStartsWith_iff_append, ih]
    constructor
    · rintro (⟨b, hb⟩ | ⟨a, b, hab⟩)
      · exact ⟨[], b, by simpa using hb⟩
      · exact ⟨c :: a, b, by simp [hab]⟩
    · rintro ⟨a, b, hab⟩
      cases a with
      | nil => exact Or.inl ⟨b, by simpa using hab⟩
      | cons a0 at' =>
        right
        refine ⟨at', b, ?_⟩
        have h : c :: t = a0 :: (at' ++ pat ++ b) := by simpa using hab
        injection h with h1 h2

/-- Strip leading and trailing whitespace: models Python `str.strip()`. -/
def pyStrip (cs : List Char) : List Char :=
  ((cs.dropWhile isSpaceChar).reverse.dropWhile isSpaceChar).reverse

/-- Zero-pad a digit list on the left to length `k`. -/
def padZeros (k : ℕ) (ds : List Char) : List Char :=
  List.replicate (k - ds.length) '0' ++ ds

/-- Fixed-point rendering of a rational with exactly six decimals: models
the Python f-string format `:.6f` used by `write_obj_file` (value rounded
to the nearest multiple of 1e-6; Python rounds the underlying double
half-to-even, the model rounds the rational half-up — they agree except at
exact representable ties). -/
def formatFixed6 (q : ℚ) : List Char :=
  let n : ℤ := round (q * 1000000)
  let a : ℕ := n.natAbs
  (if n < 0 then ['-'] else []) ++
    natDigits (a / 1000000) ++ '.' :: padZeros 6 (natDigits (a % 1000000))

/-- The rational actually denoted by the 6-decimal rendering of `q`. -/
def round6 (q : ℚ) : ℚ := (round (q * 1000000) : ℤ) / 1000000

/-- Parse an unsigned decimal literal: digits, then optionally a dot and
more digits. Models Python `float()` on the subset of decimal literals the
codec emits (no exponent forms; anything else fails). -/
def parseUnsigned? (cs : List Char) : Option ℚ :=
  let ds := cs.takeWhile isDigitChar
  match cs.dropWhile isDigitChar with
  | [] => if ds.isEmpty then none else some ((decVal ds : ℚ))
  | c :: frac =>
    if c == '.' && frac.all isDigitChar && !(ds.isEmpty && frac.isEmpty) then
      some ((decVal ds : ℚ) + (decVal frac : ℚ) / 10 ^ frac.length)
    else none

/-- Models Python `float()` on a text token (decimal literals, optionally
signed; non-numeric tokens fail, as `float()` raises `ValueError`). -/
def pyFloat? (cs : List Char) : Option ℚ :=
  match cs with
  | [] => none
  | c :: rest =>
    if c == '-' then (parseUnsigned? rest).map (fun q => -q)
    else if c == '+' then parseUnsigned? rest
    else parseUnsigned? (c :: rest)

/-- Models Python `int()` on a text token (decimal integer literals,
optionally signed; non-numeric tokens fail, as `int()` raises). -/
def pyInt? (cs : List Char) : Option ℤ :=
  match cs with
  | [] => none
  | c :: rest =>
    if c == '-' then
      if !rest.isEmpty && rest.all isDigitChar then some (-(decVal rest : ℤ)) else none
    else if c == '+' then
      if !rest.isEmpty && rest.all isDigitChar then some ((decVal rest : ℤ)) else none
    else
      if (c :: rest).all isDigitChar then some ((decVal (c :: rest) : ℤ)) else none

theorem pyInt?_natDigits (n : ℕ) : pyInt? (natDigits n) = some ((n : ℤ)) := by
  rcases hnd : natDigits n with - | ⟨c, rest⟩
  · exact absurd hnd (natDigits_ne_nil n)
  · have hdig : ∀ x ∈ natDigits n, isDigitChar x = true := natDigits_all_digit n
    rw [hnd] at hdig
    have hc : isDigitChar c = true := hdig c (by simp)
    have hcdash : (c == '-') = false := by
      simp only [beq_eq_false_iff_ne, ne_eq]
      exact digit_ne_dash hc
    have hcplus : (c == '+') = false := by
      simp only [beq_eq_false_iff_ne, ne_eq]
      exact digit_ne_plus hc
    have hall : (c :: rest).all isDigitChar = true := by
      rw [List.all_eq_true]
      exact hdig
    simp only [pyInt?, hcdash, hcplus, Bool.false_eq_true, if_false, hall, if_true]
    have : decVal (c :: rest) = n := by rw [← hnd, decVal_natDigits]
    rw [this]

theorem padZeros_all_digit {ds : List Char} (h : ∀ c ∈ ds, isDigitChar c = true)
    (k : ℕ) : ∀ c ∈ padZeros k ds, isDigitChar c = true := by
  intro c hc
  rcases List.mem_append.mp hc with h1 | h2
  · have := List.eq_of_mem_replicate h1
    subst this
    decide
  · exact h c h2

theorem padZeros_length {ds : List Char} {k : ℕ} (h : ds.length ≤ k) :
    (padZeros k ds).length = k := by
  simp only [padZeros, List.length_append, List.length_replicate]
  omega

theorem decVal_padZeros (k : ℕ) (ds : List Char) :
    decVal (padZeros k ds) = decVal ds :=
  decVal_replicate_zero_append _ ds

theorem parseUnsigned?_int_frac {ipds frds : List Char}
    (hip : ∀ c ∈ ipds, isDigitChar c = true) (hipne : ipds ≠ [])
    (hfr : ∀ c ∈ frds, isDigitChar c = true) :
    parseUnsigned? (ipds ++ '.' :: frds) =
      some ((decVal ipds : ℚ) + (decVal frds : ℚ) / 10 ^ frds.length) := by
  have hdot : isDigitChar '.' = false := by decide
  have htake : (ipds ++ '.' :: frds).takeWhile isDigitChar = ipds :=
    takeWhile_append_stop frds hip hdot
  have hdrop : (ipds ++ '.' :: frds).dropWhile isDigitChar = '.' :: frds :=
    dropWhile_append_stop frds hip hdot
  have hfrall : frds.all isDigitChar = true := List.all_eq_true.mpr hfr
  simp only [parseUnsigned?, htake, hdrop, beq_self_eq_true, hfrall,
    Bool.and_eq_true, Bool.not_eq_true', Bool.and_eq_false_iff,
    List.isEmpty_eq_true, true_and]
  have hne : ipds.isEmpty = false := by
    cases ipds with
    | nil => exact absurd rfl hipne
    | cons x xs => rfl
  simp [hne]

theorem parse_format_body (a : ℕ) :
    parseUnsigned? (natDigits (a / 1000000) ++ '.' :: padZeros 6 (natDigits (a % 1000000))) =
      some ((a : ℚ) / 1000000) := by
  have hmod : a % 1000000 < 10 ^ 6 := by
    have := Nat.mod_lt a (show 0 < 1000000 by norm_num)
    norm_num
    omega
  have hlen : (natDigits (a % 1000000)).length ≤ 6 :=
    natDigits_length_le (by norm_num) hmod
  rw [parseUnsigned?_int_frac (natDigits_all_digit _) (natDigits_ne_nil _)
    (padZeros_all_digit (natDigits_all_digit _) 6)]
  rw [decVal_padZeros, decVal_natDigits, decVal_natDigits, padZeros_length hlen]
  congr 1
  have h10 : ((10 : ℚ)) ^ 6 = 1000000 := by norm_num
  rw [h10]
  field_simp
  norm_cast
  omega

theorem formatFixed6_not_space (q : ℚ) :
    ∀ c ∈ formatFixed6 q, isSpaceChar c = false := by
  intro c hc
  simp only [formatFixed6, List.mem_append, List.mem_cons] at hc
  rcases hc with (h1 | h2) | h3 | h4
  · by_cases hn : round (q * 1000000) < 0
    · simp [hn] at h1
      subst h1
      decide
    · simp [hn] at h1
  · exact isSpaceChar_eq_false_of_digit (natDigits_all_digit _ c h2)
  · subst h3
    decide
  · exact isSpaceChar_eq_false_of_digit
      (padZeros_all_digit (natDigits_all_digit _) 6 c h4)

theorem formatFixed6_ne_nil (q : ℚ) : formatFixed6 q ≠ [] := by
  simp only [formatFixed6]
  intro h
  rcases List.append_eq_nil.mp h with ⟨-, h2⟩
  exact List.cons_ne_nil _ _ h2

theorem pyFloat?_formatFixed6 (q : ℚ) :
    pyFloat? (formatFixed6 q) = some (round6 q) := by
  set n : ℤ := round (q * 1000000) with hn
  set a : ℕ := n.natAbs with ha
  have hbody := parse_format_body a
  by_cases hneg : n < 0
  · have hform : formatFixed6 q =
        '-' :: (natDigits (a / 1000000) ++ '.' :: padZeros 6 (natDigits (a % 1000000))) := by
      simp [formatFixed6, ← hn, hneg, ← ha]
    rw [hform]
    have hcastz : ((a : ℤ)) = -n := by rw [ha]; omega
    have hcast : ((a : ℚ)) = -((n : ℚ)) := by exact_mod_cast hcastz
    simp only [pyFloat?, beq_self_eq_true, if_true, hbody]
    rw [round6, ← hn, hcast]
    simp only [Option.map]
    congr 1
    ring
  · have hform : formatFixed6 q =
        natDigits (a / 1000000) ++ '.' :: padZeros 6 (natDigits (a % 1000000)) := by
      simp [formatFixed6, ← hn, hneg, ← ha]
    rcases hnd : natDigits (a / 1000000) with - | ⟨c, rest⟩
    · exact absurd hnd (natDigits_ne_nil _)
    · have hdig : ∀ x ∈ natDigits (a / 1000000), isDigitChar x = true :=
        natDigits_all_digit _
      rw [hnd] at hdig
      have hc : isDigitChar c = true := hdig c (by simp)
      have hcdash : (c == '-') = false := by
        simp only [beq_eq_false_iff_ne, ne_eq]; exact digit_ne_dash hc
      have hcplus : (c == '+') = false := by
        simp only [beq_eq_false_iff_ne, ne_eq]; exact digit_ne_plus hc
      rw [hform, hnd]
      simp only [List.cons_append, pyFloat?, hcdash, hcplus, Bool.false_eq_true, if_false]
      rw [show (c :: (rest ++ '.' :: padZeros 6 (natDigits (a % 1000000)))) =
        (c :: rest) ++ '.' :: padZeros 6 (natDigits (a % 1000000)) from rfl]
      rw [← hnd, hbody, round6, ← hn]
      have hcastz : ((a : ℤ)) = n := by rw [ha]; omega
      have hcast : ((a : ℚ)) = ((n : ℚ)) := by exact_mod_cast hcastz
      rw [hcast]

theorem abs_round6_sub_lt (q : ℚ) : |round6 q - q| < 1 / 1000000 := by
  have h := abs_sub_round (q * 1000000)
  have key : round6 q - q = ((round (q * 1000000) : ℤ) - q * 1000000) / 1000000 := by
    rw [round6]
    field_simp
    ring
  rw [key, abs_div, abs_sub_comm]
  have habs : |(1000000 : ℚ)| = 1000000 := by norm_num
  rw [habs]
  calc |q * 1000000 - ((round (q * 1000000) : ℤ) : ℚ)| / 1000000
      ≤ (1 / 2) / 1000000 := by
        rw [div_le_div_iff_of_pos_right (by norm_num : (0:ℚ) < 1000000)]
        exact h
    _ < 1 / 1000000 := by norm_num

/-- A 3-component vector of rationals, modelling a Blender `mathutils`
vector (coordinates are modelled over `ℚ`). -/
structure Vec3 where
  x : ℚ
  y : ℚ
  z : ℚ
deriving DecidableEq

/-- A 4×4 world-transform matrix (`obj.matrix_world`), row-major. -/
structure Mat4 where
  m00 : ℚ
  m01 : ℚ
  m02 : ℚ
  m03 : ℚ
  m10 : ℚ
  m11 : ℚ
  m12 : ℚ
  m13 : ℚ
  m20 : ℚ
  m21 : ℚ
  m22 : ℚ
  m23 : ℚ
  m30 : ℚ
  m31 : ℚ
  m32 : ℚ
  m33 : ℚ
deriving DecidableEq

/-- Application of a 4×4 matrix to a 3-D point: Blender `matrix @ v.co`
extends the vector with `w = 1` and truncates the result to 3-D, so the
translation column participates. -/
def mat4ApplyPoint (M : Mat4) (v : Vec3) : Vec3 :=
  ⟨M.m00 * v.x + M.m01 * v.y + M.m02 * v.z + M.m03,
   M.m10 * v.x + M.m11 * v.y + M.m12 * v.z + M.m13,
   M.m20 * v.x + M.m21 * v.y + M.m22 * v.z + M.m23⟩

/-- Application of the 3×3 linear part only: `matrix.to_3x3() @ v.normal`
(no translation). -/
def mat3ApplyVec (M : Mat4) (v : Vec3) : Vec3 :=
  ⟨M.m00 * v.x + M.m01 * v.y + M.m02 * v.z,
   M.m10 * v.x + M.m11 * v.y + M.m12 * v.z,
   M.m20 * v.x + M.m21 * v.y + M.m22 * v.z⟩

/-- The identity transform. -/
def idMat4 : Mat4 := ⟨1, 0, 0, 0, 0, 1, 0, 0, 0, 0, 1, 0, 0, 0, 0, 1⟩

/-- Exact rational square root of a nonnegative rational, when one
exists. -/
def ratSqrt? (q : ℚ) : Option ℚ :=
  if q < 0 then none
  else
    let a := Nat.sqrt q.num.natAbs
    let b := Nat.sqrt q.den
    if a * a = q.num.natAbs ∧ b * b = q.den then some ((a : ℚ) / (b : ℚ)) else none

/-- Models `mathutils.Vector.normalize()`: divide by the Euclidean length,
the zero vector staying zero. The model is exact whenever the squared
length has a rational square root, which covers every input the claims
under verification evaluate; no claim constrains normal component values
beyond record layout. -/
def normalizeV (v : Vec3) : Vec3 :=
  match ratSqrt? (v.x * v.x + v.y * v.y + v.z * v.z) with
  | some r => if r = 0 then v else ⟨v.x / r, v.y / r, v.z / r⟩
  | none => v

/-- A bmesh vertex as read by `write_obj_file`: position `v.co` and
per-vertex normal `v.normal`. -/
structure BVert where
  co : Vec3
  normal : Vec3
deriving DecidableEq

/-- The bmesh data `write_obj_file` serializes: the ordered vertex
sequence and the faces, a face being the ordered list of its vertices'
indices into the vertex sequence (`v.index`). -/
structure BMesh where
  verts : List BVert
  faces : List (List ℕ)
deriving DecidableEq

/-- Triangles `[v0, a, b]` over consecutive pairs of the remaining ring,
the helper of fan triangulation. -/
def fanPairs (v0 : ℕ) : List ℕ → List (List ℕ)
  | a :: b :: rest => [v0, a, b] :: fanPairs v0 (b :: rest)
  | _ => []

/-- Modelled from the spec: `write_obj_file` triangulates through the
external library call `bmesh.ops.triangulate(bm, faces=bm.faces)`, whose
algorithm is not part of this repository; the spec fixes the policy as fan
triangulation from the face's first vertex, a face with at most three
vertices being left unchanged. -/
def fanTriangulate (f : List ℕ) : List (List ℕ) :=
  if f.length ≤ 3 then [f]
  else
    match f with
    | [] => [f]
    | v0 :: rest => fanPairs v0 rest

/-- The header comment line written by `write_obj_file`. -/
def headerLine : List Char :=
  ("# OBJ file created by Instant Meshes Blender Addon").toList

/-- A `v` record: `f.write(f"v {co.x:.6f} {co.y:.6f} {co.z:.6f}\n")`. -/
def vLine (c : Vec3) : List Char :=
  'v' :: ' ' :: (formatFixed6 c.x ++ ' ' :: (formatFixed6 c.y ++ ' ' :: formatFixed6 c.z))

/-- A `vn` record, same layout with the `vn` keyword. -/
def vnLine (nv : Vec3) : List Char :=
  'v' :: 'n' :: ' ' :: (formatFixed6 nv.x ++ ' ' :: (formatFixed6 nv.y ++ ' ' :: formatFixed6 nv.z))

/-- A face token `idx//idx` with `idx = str(v.index + 1)`: the 1-based
vertex index doubling as its own normal index. -/
def faceTok (i : ℕ) : List Char :=
  natDigits (i + 1) ++ '/' :: '/' :: natDigits (i + 1)

/-- Space-join: models `" ".join(tokens)`. -/
def joinSpace : List (List Char) → List Char
  | [] => []
  | [t] => t
  | t :: ts => t ++ ' ' :: joinSpace ts

/-- An `f` record: `f.write(f"f {' '.join(indices_with_normals)}\n")`. -/
def fLine (f : List ℕ) : List Char :=
  'f' :: ' ' :: joinSpace (f.map faceTok)

/-- The face list actually emitted: `bmesh.ops.triangulate` is applied to
all faces first when `triangulate` is true. -/
def objOutFaces (m : BMesh) (triangulate : Bool) : List (List ℕ) :=
  if triangulate then m.faces.flatMap fanTriangulate else m.faces

/-- Models `write_obj_file(obj, filepath, triangulate)` as the list of
lines written: the header comment, one `v` record per vertex (position
transformed by the full object matrix), one `vn` record per vertex
(normal transformed by the 3×3 part and renormalized), then one `f`
record per emitted face. -/
def write_obj_file (m : BMesh) (matrix : Mat4) (triangulate : Bool) : List (List Char) :=
  headerLine ::
    (m.verts.map (fun v => vLine (mat4ApplyPoint matrix v.co)) ++
     m.verts.map (fun v => vnLine (normalizeV (mat3ApplyVec matrix v.normal))) ++
     (objOutFaces m triangulate).map fLine)

/-- The mesh assembled by the manual parser of `read_obj_file`: vertex
positions and faces over (unvalidated) 0-based indices. -/
structure DecodedMesh where
  vertices : List Vec3
  faces : List (List ℤ)
deriving DecidableEq

/-- One iteration of the `for line in f` loop of `read_obj_file`: a line
starting `v ` with at least 4 whitespace-separated fields contributes a
vertex from three parsed floats, a shorter `v ` line is skipped, a line
starting `f ` contributes a face from each token's leading `/`-component
parsed as an int minus one, and any other line is ignored. A `none`
result models a `float()`/`int()` exception escaping to the function's
catch-all `except` handler. -/
def readStep (acc : List Vec3 × List (List ℤ)) (line : List Char) :
    Option (List Vec3 × List (List ℤ)) :=
  if lineStartsWith line ['v', ' '] then
    let parts := pyWords line
    if 4 ≤ parts.length then do
      let x ← pyFloat? (parts.getD 1 [])
      let y ← pyFloat? (parts.getD 2 [])
      let z ← pyFloat? (parts.getD 3 [])
      some (acc.1 ++ [⟨x, y, z⟩], acc.2)
    else some acc
  else if lineStartsWith line ['f', ' '] then
    let parts := pyWords line
    (parts.drop 1).mapM (fun p => pyInt? ((splitOnPChar (fun c => c == '/') p).headD []))
      |>.map (fun ks => (acc.1, acc.2 ++ [ks.map (fun k => k - 1)]))
  else some acc

/-- Models the manual OBJ parser of `read_obj_file` (the built-in importer
branch is host-dependent and absent in Blender 4.x, where the legacy OBJ
importer operator no longer exists): fold `readStep` over the lines;
`none` models the catch-all `except` returning `None`. -/
def read_obj_file (lines : List (List Char)) : Option DecodedMesh :=
  (lines.foldlM readStep ([], [])).map (fun vf => ⟨vf.1, vf.2⟩)

/-- Coordinatewise 6-decimal rounding: what a vertex position becomes
after being formatted by the encoder and re-parsed by the decoder. -/
def round6Vec (c : Vec3) : Vec3 := ⟨round6 c.x, round6 c.y, round6 c.z⟩

theorem readStep_skip_short_v {line : List Char}
    (hv : lineStartsWith line ['v', ' '] = true)
    (hshort : (pyWords line).length < 4) (acc : List Vec3 × List (List ℤ)) :
    readStep acc line = some acc := by
  have h4 : ¬ 4 ≤ (pyWords line).length := by omega
  simp [readStep, hv, h4]

theorem readStep_other {line : List Char}
    (hv : lineStartsWith line ['v', ' '] = false)
    (hf : lineStartsWith line ['f', ' '] = false) (acc : List Vec3 × List (List ℤ)) :
    readStep acc line = some acc := by
  simp [readStep, hv, hf]

theorem readStep_headerLine (acc : List Vec3 × List (List ℤ)) :
    readStep acc headerLine = some acc := by
  apply readStep_other <;> decide

theorem readStep_vnLine (nv : Vec3) (acc : List Vec3 × List (List ℤ)) :
    readStep acc (vnLine nv) = some acc := by
  apply readStep_other <;> simp [vnLine, lineStartsWith]

theorem pyWords_three_fields (w F1 F2 F3 : List Char)
    (hw : ∀ x ∈ w, isSpaceChar x = false) (hwn : w ≠ [])
    (h1 : ∀ x ∈ F1, isSpaceChar x = false) (h1n : F1 ≠ [])
    (h2 : ∀ x ∈ F2, isSpaceChar x = false) (h2n : F2 ≠ [])
    (h3 : ∀ x ∈ F3, isSpaceChar x = false) (h3n : F3 ≠ []) :
    pyWords (w ++ ' ' :: (F1 ++ ' ' :: (F2 ++ ' ' :: F3))) = [w, F1, F2, F3] := by
  rw [pyWords_word_space _ hw hwn, pyWords_word_space _ h1 h1n,
    pyWords_word_space _ h2 h2n, pyWords_word h3 h3n]

theorem pyWords_vLine (c : Vec3) :
    pyWords (vLine c) = [['v'], formatFixed6 c.x, formatFixed6 c.y, formatFixed6 c.z] := by
  show pyWords
      (['v'] ++ ' ' :: (formatFixed6 c.x ++ ' ' :: (formatFixed6 c.y ++ ' ' :: formatFixed6 c.z)))
    = _
  exact pyWords_three_fields _ _ _ _
    (by intro x hx; simp at hx; subst hx; decide) (by simp)
    (formatFixed6_not_space c.x) (formatFixed6_ne_nil c.x)
    (formatFixed6_not_space c.y) (formatFixed6_ne_nil c.y)
    (formatFixed6_not_space c.z) (formatFixed6_ne_nil c.z)

theorem readStep_vLine (c : Vec3) (acc : List Vec3 × List (List ℤ)) :
    readStep acc (vLine c) = some (acc.1 ++ [round6Vec c], acc.2) := by
  have hv : lineStartsWith (vLine c) ['v', ' '] = true := by
    simp [vLine, lineStartsWith]
  simp only [readStep, hv, if_true, pyWords_vLine]
  simp [pyFloat?_formatFixed6, round6Vec]

theorem faceTok_not_space (i : ℕ) : ∀ c ∈ faceTok i, isSpaceChar c = false := by
  intro c hc
  simp only [faceTok, List.mem_append, List.mem_cons] at hc
  rcases hc with h1 | h2 | h3 | h4
  · exact isSpaceChar_eq_false_of_digit (natDigits_all_digit _ c h1)
  · subst h2; decide
  · subst h3; decide
  · exact isSpaceChar_eq_false_of_digit (natDigits_all_digit _ c h4)

theorem faceTok_ne_nil (i : ℕ) : faceTok i ≠ [] := by
  simp only [faceTok]
  intro h
  rcases List.append_eq_nil.mp h with ⟨h1, -⟩
  exact natDigits_ne_nil _ h1

theorem splitSlash_faceTok (i : ℕ) :
    (splitOnPChar (fun c => c == '/') (faceTok i)).headD [] = natDigits (i + 1) := by
  have hnd : ∀ c ∈ natDigits (i + 1), (fun c => c == '/') c = false := by
    intro c hc
    simp only [beq_eq_false_iff_ne, ne_eq]
    exact digit_ne_slash (natDigits_all_digit _ c hc)
  rw [faceTok, splitOnPChar_word_sep _ hnd (by decide)]
  rfl

theorem pyWords_joinSpace {toks : List (List Char)}
    (h : ∀ t ∈ toks, t ≠ [] ∧ ∀ c ∈ t, isSpaceChar c = false) :
    pyWords (joinSpace toks) = toks := by
  induction toks with
  | nil => rfl
  | cons t ts ih =>
    cases ts with
    | nil =>
      obtain ⟨hne, hsp⟩ := h t (by simp)
      exact pyWords_word hsp hne
    | cons t2 ts2 =>
      obtain ⟨hne, hsp⟩ := h t (by simp)
      rw [show joinSpace (t :: t2 :: ts2) = t ++ ' ' :: joinSpace (t2 :: ts2) from rfl,
        pyWords_word_space _ hsp hne, ih (fun u hu => h u (by simp [hu]))]

theorem pyWords_fLine (ks : List ℕ) :
    pyWords (fLine ks) = ['f'] :: ks.map faceTok := by
  have h1 : pyWords (['f'] ++ ' ' :: joinSpace (ks.map faceTok)) =
      ['f'] :: pyWords (joinSpace (ks.map faceTok)) :=
    pyWords_word_space _ (by intro x hx; simp at hx; subst hx; decide) (by simp)
  show pyWords (['f'] ++ ' ' :: joinSpace (ks.map faceTok)) = _
  rw [h1, pyWords_joinSpace]
  intro t ht
  obtain ⟨i, -, rfl⟩ := List.mem_map.mp ht
  exact ⟨faceTok_ne_nil i, faceTok_not_space i⟩

theorem mapM_faceTok (ks : List ℕ) :
    (ks.map faceTok).mapM
        (fun p => pyInt? ((splitOnPChar (fun c => c == '/') p).headD [])) =
      some (ks.map (fun k => ((k + 1 : ℕ) : ℤ))) := by
  induction ks with
  | nil => rfl
  | cons k t ih =>
    rw [List.map_cons, List.mapM_cons, splitSlash_faceTok, pyInt?_natDigits, ih]
    rfl

theorem readStep_fLine (ks : List ℕ) (acc : List Vec3 × List (List ℤ)) :
    readStep acc (fLine ks) = some (acc.1, acc.2 ++ [ks.map (fun k => (Int.ofNat k))]) := by
  have hv : lineStartsWith (fLine ks) ['v', ' '] = false := by
    simp [fLine, lineStartsWith]
  have hf : lineStartsWith (fLine ks) ['f', ' '] = true := by
    simp [fLine, lineStartsWith]
  simp only [readStep, hv, Bool.false_eq_true, if_false, hf, if_true, pyWords_fLine,
    List.drop_succ_cons, List.drop_zero, mapM_faceTok, Option.map]
  have : (ks.map (fun k => ((k + 1 : ℕ) : ℤ))).map (fun k => k - 1) =
      ks.map (fun k => (Int.ofNat k)) := by
    rw [List.map_map]
    apply List.map_congr_left
    intro a ha
    simp only [Function.comp_apply]
    push_cast
    simp [Int.ofNat_eq_natCast]
  rw [this]

theorem foldlM_vLines (cs : List Vec3) (acc : List Vec3 × List (List ℤ)) :
    (cs.map vLine).foldlM readStep acc = some (acc.1 ++ cs.map round6Vec, acc.2) := by
  induction cs generalizing acc with
  | nil => simp
  | cons c t ih =>
    rw [List.map_cons, List.foldlM_cons, readStep_vLine]
    simp [ih, List.append_assoc]

theorem foldlM_vnLines (ns : List Vec3) (acc : List Vec3 × List (List ℤ)) :
    (ns.map vnLine).foldlM readStep acc = some acc := by
  induction ns generalizing acc with
  | nil => simp
  | cons c t ih =>
    rw [List.map_cons, List.foldlM_cons, readStep_vnLine]
    simp [ih]

theorem foldlM_fLines (fs : List (List ℕ)) (acc : List Vec3 × List (List ℤ)) :
    (fs.map fLine).foldlM readStep acc =
      some (acc.1, acc.2 ++ fs.map (fun f => f.map (fun k => (Int.ofNat k)))) := by
  induction fs generalizing acc with
  | nil => simp
  | cons f t ih =>
    rw [List.map_cons, List.foldlM_cons, readStep_fLine]
    simp [ih, List.append_assoc]

/-- The mesh the decoder recovers from the encoder's output: rounded
transformed positions, and the emitted faces re-read as 0-based
integers. -/
def decodedOf (m : BMesh) (matrix : Mat4) (triangulate : Bool) : DecodedMesh :=
  ⟨m.verts.map (fun v => round6Vec (mat4ApplyPoint matrix v.co)),
   (objOutFaces m triangulate).map (fun f => f.map (fun k => (Int.ofNat k)))⟩

theorem decodedOf_vertices (m : BMesh) (matrix : Mat4) (triangulate : Bool) :
    (decodedOf m matrix triangulate).vertices =
      m.verts.map (fun v => round6Vec (mat4ApplyPoint matrix v.co)) := rfl

theorem decodedOf_faces (m : BMesh) (matrix : Mat4) (triangulate : Bool) :
    (decodedOf m matrix triangulate).faces =
      (objOutFaces m triangulate).map (fun f => f.map (fun k => (Int.ofNat k))) := rfl

/-- Full evaluation of the decoder on the encoder's output shape: the
header is skipped, each `v` record contributes its (rounded) position,
each `vn` record is skipped, each `f` record contributes its 0-based
face. -/
theorem read_write_eval (m : BMesh) (matrix : Mat4) (triangulate : Bool) :
    read_obj_file (write_obj_file m matrix triangulate) =
      some (decodedOf m matrix triangulate) := by
  rw [show some (decodedOf m matrix triangulate) =
      some (⟨m.verts.map (fun v => round6Vec (mat4ApplyPoint matrix v.co)),
        (objOutFaces m triangulate).map (fun f => f.map (fun k => (Int.ofNat k)))⟩ : DecodedMesh)
    from rfl]
  have hv : m.verts.map (fun v => vLine (mat4ApplyPoint matrix v.co)) =
      (m.verts.map (fun v => mat4ApplyPoint matrix v.co)).map vLine := by
    rw [List.map_map]; rfl
  have hn : m.verts.map (fun v => vnLine (normalizeV (mat3ApplyVec matrix v.normal))) =
      (m.verts.map (fun v => normalizeV (mat3ApplyVec matrix v.normal))).map vnLine := by
    rw [List.map_map]; rfl
  rw [read_obj_file, write_obj_file, hv, hn]
  simp only [List.foldlM_cons, List.foldlM_append, readStep_headerLine,
    foldlM_vLines, foldlM_vnLines, foldlM_fLines]
  simp [List.map_map]

theorem mat4ApplyPoint_id (v : Vec3) : mat4ApplyPoint idMat4 v = v := by
  cases v with
  | mk x y z =>
    simp only [mat4ApplyPoint, idMat4, Vec3.mk.injEq]
    refine ⟨by ring, by ring, by ring⟩

theorem flatMap_fan_of_small {fs : List (List ℕ)} (h : ∀ f ∈ fs, f.length ≤ 3) :
    fs.flatMap fanTriangulate = fs := by
  induction fs with
  | nil => rfl
  | cons f t ih =>
    rw [List.flatMap_cons]
    have hf : fanTriangulate f = [f] := by
      simp [fanTriangulate, h f (by simp)]
    rw [hf, ih (fun g hg => h g (by simp [hg]))]
    rfl

theorem objOutFaces_of_triangular {m : BMesh}
    (htri : ∀ f ∈ m.faces, f.length = 3) : objOutFaces m true = m.faces := by
  rw [objOutFaces, if_pos rfl]
  exact flatMap_fan_of_small (fun f hf => le_of_eq (htri f hf))

/-- Concrete one-triangle mesh used as a witness input. -/
def triMesh0 : BMesh :=
  ⟨[⟨⟨0, 0, 0⟩, ⟨0, 0, 1⟩⟩, ⟨⟨1, 0, 0⟩, ⟨0, 0, 1⟩⟩, ⟨⟨0, 1, 0⟩, ⟨0, 0, 1⟩⟩], [[0, 1, 2]]⟩

/-- C1: round-trip. For every mesh containing only triangular faces,
encoding with the identity transform and `triangulate = true`
(`write_obj_file`) and then decoding the resulting OBJ text
(`read_obj_file`) yields a mesh with the same vertex count, the same
vertex positions within 1e-6 per coordinate, and the same face
connectivity over the same 0-based vertex indices. -/
theorem c1_roundtrip (m : BMesh) (htri : ∀ f ∈ m.faces, f.length = 3) :
    ∃ dm, read_obj_file (write_obj_file m idMat4 true) = some dm ∧
      dm.vertices.length = m.verts.length ∧
      List.Forall₂ (fun dv mv =>
        |dv.x - mv.co.x| < 1 / 1000000 ∧
        |dv.y - mv.co.y| < 1 / 1000000 ∧
        |dv.z - mv.co.z| < 1 / 1000000) dm.vertices m.verts ∧
      dm.faces = m.faces.map (fun f => f.map (fun k => (Int.ofNat k))) := by
  refine ⟨decodedOf m idMat4 true, read_write_eval m idMat4 true, ?_, ?_, ?_⟩
  · rw [decodedOf_vertices]
    simp
  · rw [decodedOf_vertices, List.forall₂_map_left_iff, List.forall₂_same]
    intro v hv
    rw [mat4ApplyPoint_id]
    exact ⟨abs_round6_sub_lt v.co.x, abs_round6_sub_lt v.co.y, abs_round6_sub_lt v.co.z⟩
  · rw [decodedOf_faces, objOutFaces_of_triangular htri]

/-- Witness for C1: the round-trip theorem applied to a concrete
one-triangle mesh. -/
theorem c1_roundtrip_witness :
    (∀ f ∈ triMesh0.faces, f.length = 3) ∧
    (∃ dm, read_obj_file (write_obj_file triMesh0 idMat4 true) = some dm ∧
      dm.vertices.length = triMesh0.verts.length ∧
      List.Forall₂ (fun dv mv =>
        |dv.x - mv.co.x| < 1 / 1000000 ∧
        |dv.y - mv.co.y| < 1 / 1000000 ∧
        |dv.z - mv.co.z| < 1 / 1000000) dm.vertices triMesh0.verts ∧
      dm.faces = triMesh0.faces.map (fun f => f.map (fun k => (Int.ofNat k)))) :=
  ⟨by decide, c1_roundtrip triMesh0 (by decide)⟩

/-- The single-vertex mesh of the transform-application test: one vertex
at (1,0,0). -/
def vertMesh1 : BMesh := ⟨[⟨⟨1, 0, 0⟩, ⟨0, 0, 1⟩⟩], []⟩

/-- A transform translating by (2,0,0). -/
def translate2 : Mat4 := ⟨1, 0, 0, 2, 0, 1, 0, 0, 0, 0, 1, 0, 0, 0, 0, 1⟩

unseal Rat.mul Rat.add Rat.sub Rat.inv in
/-- C9: encoding a mesh whose single vertex is (1,0,0) with a transform
that translates by (2,0,0) produces the vertex record line
`v 3.000000 0.000000 0.000000`: the full 4×4 transform, including the
translation column, is applied to the position before it is written with
6-decimal fixed-point formatting. -/
theorem c9_transform_applied :
    (write_obj_file vertMesh1 translate2 true).getD 1 [] =
      ("v 3.000000 0.000000 0.000000").toList := by
  decide

theorem vLine_class (c : Vec3) :
    lineStartsWith (vLine c) ['v', ' '] = true ∧
    lineStartsWith (vLine c) ['v', 'n', ' '] = false ∧
    lineStartsWith (vLine c) ['f', ' '] = false := by
  refine ⟨?_, ?_, ?_⟩ <;> simp [vLine, lineStartsWith]

theorem vnLine_class (nv : Vec3) :
    lineStartsWith (vnLine nv) ['v', ' '] = false ∧
    lineStartsWith (vnLine nv) ['v', 'n', ' '] = true ∧
    lineStartsWith (vnLine nv) ['f', ' '] = false := by
  refine ⟨?_, ?_, ?_⟩ <;> simp [vnLine, lineStartsWith]

theorem fLine_class (f : List ℕ) :
    lineStartsWith (fLine f) ['v', ' '] = false ∧
    lineStartsWith (fLine f) ['v', 'n', ' '] = false ∧
    lineStartsWith (fLine f) ['f', ' '] = true := by
  refine ⟨?_, ?_, ?_⟩ <;> simp [fLine, lineStartsWith]

theorem countP_of_map_true {α : Type} (p : List Char → Bool) (f : α → List Char)
    (l : List α) (h : ∀ a ∈ l, p (f a) = true) : (l.map f).countP p = l.length := by
  have hall : ∀ x ∈ l.map f, p x = true := by
    intro x hx
    obtain ⟨a, ha, rfl⟩ := List.mem_map.mp hx
    exact h a ha
  rw [List.countP_eq_length.mpr hall, List.length_map]

theorem countP_of_map_false {α : Type} (p : List Char → Bool) (f : α → List Char)
    (l : List α) (h : ∀ a ∈ l, p (f a) = false) : (l.map f).countP p = 0 := by
  apply List.countP_eq_zero.mpr
  intro x hx
  obtain ⟨a, ha, rfl⟩ := List.mem_map.mp hx
  simp [h a ha]

/-- C10: fixed record layout of the encoded output, for every mesh,
transform and triangulate flag — the first line is the `#` comment
header, then exactly one `v` record per vertex, then exactly one `vn`
record per vertex (normals are always emitted and their count equals the
vertex count), then the face records, in that order. -/
theorem c10_layout (m : BMesh) (matrix : Mat4) (triangulate : Bool) :
    write_obj_file m matrix triangulate =
      headerLine :: (m.verts.map (fun v => vLine (mat4ApplyPoint matrix v.co)) ++
        m.verts.map (fun v => vnLine (normalizeV (mat3ApplyVec matrix v.normal))) ++
        (objOutFaces m triangulate).map fLine) ∧
    lineStartsWith headerLine ['#'] = true ∧
    (write_obj_file m matrix triangulate).countP
      (fun l => lineStartsWith l ['v', ' ']) = m.verts.length ∧
    (write_obj_file m matrix triangulate).countP
      (fun l => lineStartsWith l ['v', 'n', ' ']) = m.verts.length ∧
    (write_obj_file m matrix triangulate).countP
      (fun l => lineStartsWith l ['f', ' ']) = (objOutFaces m triangulate).length ∧
    (∀ l ∈ m.verts.map (fun v => vLine (mat4ApplyPoint matrix v.co)),
      lineStartsWith l ['v', ' '] = true) ∧
    (∀ l ∈ m.verts.map (fun v => vnLine (normalizeV (mat3ApplyVec matrix v.normal))),
      lineStartsWith l ['v', 'n', ' '] = true) ∧
    (∀ l ∈ (objOutFaces m triangulate).map fLine,
      lineStartsWith l ['f', ' '] = true) := by
  refine ⟨rfl, by decide, ?_, ?_, ?_, ?_, ?_, ?_⟩
  · have h1 : (m.verts.map (fun v => vLine (mat4ApplyPoint matrix v.co))).countP
        (fun l => lineStartsWith l ['v', ' ']) = m.verts.length := by
      apply countP_of_map_true
      intro v hv
      exact (vLine_class _).1
    have h2 : (m.verts.map (fun v => vnLine (normalizeV (mat3ApplyVec matrix v.normal)))).countP
        (fun l => lineStartsWith l ['v', ' ']) = 0 := by
      apply countP_of_map_false
      intro v hv
      exact (vnLine_class _).1
    have h3 : ((objOutFaces m triangulate).map fLine).countP
        (fun l => lineStartsWith l ['v', ' ']) = 0 := by
      apply countP_of_map_false
      intro f hf
      exact (fLine_class _).1
    rw [write_obj_file, List.countP_cons, List.countP_append, List.countP_append,
      h1, h2, h3]
    norm_num [show lineStartsWith headerLine ['v', ' '] = false by decide]
  · have h1 : (m.verts.map (fun v => vLine (mat4ApplyPoint matrix v.co))).countP
        (fun l => lineStartsWith l ['v', 'n', ' ']) = 0 := by
      apply countP_of_map_false
      intro v hv
      exact (vLine_class _).2.1
    have h2 : (m.verts.map (fun v => vnLine (normalizeV (mat3ApplyVec matrix v.normal)))).countP
        (fun l => lineStartsWith l ['v', 'n', ' ']) = m.verts.length := by
      apply countP_of_map_true
      intro v hv
      exact (vnLine_class _).2.1
    have h3 : ((objOutFaces m triangulate).map fLine).countP
        (fun l => lineStartsWith l ['v', 'n', ' ']) = 0 := by
      apply countP_of_map_false
      intro f hf
      exact (fLine_class _).2.1
    rw [write_obj_file, List.countP_cons, List.countP_append, List.countP_append,
      h1, h2, h3]
    norm_num [show lineStartsWith headerLine ['v', 'n', ' '] = false by decide]
  · have h1 : (m.verts.map (fun v => vLine (mat4ApplyPoint matrix v.co))).countP
        (fun l => lineStartsWith l ['f', ' ']) = 0 := by
      apply countP_of_map_false
      intro v hv
      exact (vLine_class _).2.2
    have h2 : (m.verts.map (fun v => vnLine (normalizeV (mat3ApplyVec matrix v.normal)))).countP
        (fun l => lineStartsWith l ['f', ' ']) = 0 := by
      apply countP_of_map_false
      intro v hv
      exact (vnLine_class _).2.2
    have h3 : ((objOutFaces m triangulate).map fLine).countP
        (fun l => lineStartsWith l ['f', ' ']) = (objOutFaces m triangulate).length := by
      apply countP_of_map_true
      intro f hf
      exact (fLine_class _).2.2
    rw [write_obj_file, List.countP_cons, List.countP_append, List.countP_append,
      h1, h2, h3]
    norm_num [show lineStartsWith headerLine ['f', ' '] = false by decide]
  · intro l hl
    obtain ⟨v, -, rfl⟩ := List.mem_map.mp hl
    exact (vLine_class _).1
  · intro l hl
    obtain ⟨v, -, rfl⟩ := List.mem_map.mp hl
    exact (vnLine_class _).2.1
  · intro l hl
    obtain ⟨f, -, rfl⟩ := List.mem_map.mp hl
    exact (fLine_class _).2.2

theorem fanPairs_length (v0 : ℕ) (rest : List ℕ) :
    (fanPairs v0 rest).length = rest.length - 1 := by
  induction rest with
  | nil => rfl
  | cons a t ih =>
    cases t with
    | nil => rfl
    | cons b t2 =>
      rw [show fanPairs v0 (a :: b :: t2) = [v0, a, b] :: fanPairs v0 (b :: t2) from rfl]
      simp only [List.length_cons]
      rw [ih]
      simp

theorem fanPairs_eq_range (v0 : ℕ) (rest : List ℕ) :
    fanPairs v0 rest = (List.range (rest.length - 1)).map
      (fun i => [v0, rest.getD i 0, rest.getD (i + 1) 0]) := by
  induction rest with
  | nil => rfl
  | cons a t ih =>
    cases t with
    | nil => rfl
    | cons b t2 =>
      rw [show fanPairs v0 (a :: b :: t2) = [v0, a, b] :: fanPairs v0 (b :: t2) from rfl, ih]
      rw [show (a :: b :: t2).length - 1 = ((b :: t2).length - 1) + 1 by simp]
      rw [List.range_succ_eq_map, List.map_cons, List.map_map]
      rfl

theorem fanPairs_flatten_mem (v0 : ℕ) (rest : List ℕ) (h : 2 ≤ rest.length) :
    ∀ x, x ∈ (fanPairs v0 rest).flatten ↔ x ∈ v0 :: rest := by
  induction rest with
  | nil => simp at h
  | cons a t ih =>
    cases t with
    | nil => simp at h
    | cons b t2 =>
      cases t2 with
      | nil =>
        intro x
        rw [show fanPairs v0 [a, b] = [[v0, a, b]] from rfl]
        simp
      | cons d t3 =>
        intro x
        have ihx := ih (by simp) x
        rw [show fanPairs v0 (a :: b :: d :: t3) = [v0, a, b] :: fanPairs v0 (b :: d :: t3)
          from rfl]
        rw [List.flatten_cons, List.mem_append, ihx]
        simp
        tauto

theorem fanTriangulate_of_large {v0 : ℕ} {rest : List ℕ}
    (hk : 3 < (v0 :: rest).length) :
    fanTriangulate (v0 :: rest) = fanPairs v0 rest := by
  rw [fanTriangulate, if_neg (by omega)]

/-- C3: for every input face with k > 3 vertices, encoding with
`triangulate = true` emits exactly k - 2 triangular faces covering the
same vertex set, triangulated as a fan from the face's first vertex;
`write_obj_file` emits exactly these fan triangles as its face records. -/
theorem c3_fan_triangulation (v0 : ℕ) (rest : List ℕ) (vs : List BVert)
    (matrix : Mat4) (hk : 3 < (v0 :: rest).length) :
    (fanTriangulate (v0 :: rest)).length = (v0 :: rest).length - 2 ∧
    (∀ t ∈ fanTriangulate (v0 :: rest), t.length = 3) ∧
    (∀ x, x ∈ (fanTriangulate (v0 :: rest)).flatten ↔ x ∈ v0 :: rest) ∧
    fanTriangulate (v0 :: rest) = (List.range (rest.length - 1)).map
      (fun i => [v0, rest.getD i 0, rest.getD (i + 1) 0]) ∧
    write_obj_file ⟨vs, [v0 :: rest]⟩ matrix true =
      headerLine :: (vs.map (fun v => vLine (mat4ApplyPoint matrix v.co)) ++
        vs.map (fun v => vnLine (normalizeV (mat3ApplyVec matrix v.normal))) ++
        (fanTriangulate (v0 :: rest)).map fLine) := by
  have hfan := fanTriangulate_of_large hk
  have hrest : 2 ≤ rest.length := by
    simp only [List.length_cons] at hk
    omega
  refine ⟨?_, ?_, ?_, ?_, ?_⟩
  · rw [hfan, fanPairs_length]
    simp only [List.length_cons]
    omega
  · intro t ht
    rw [hfan, fanPairs_eq_range] at ht
    obtain ⟨i, -, rfl⟩ := List.mem_map.mp ht
    rfl
  · rw [hfan]
    exact fanPairs_flatten_mem v0 rest hrest
  · rw [hfan]
    exact fanPairs_eq_range v0 rest
  · rw [write_obj_file, objOutFaces, if_pos rfl]
    rw [show ([v0 :: rest] : List (List ℕ)).flatMap fanTriangulate =
      fanTriangulate (v0 :: rest) by simp]

/-- Witness for C3 at a concrete pentagon face. -/
theorem c3_fan_triangulation_witness :
    3 < ([7, 8, 9, 10, 11] : List ℕ).length ∧
    ((fanTriangulate [7, 8, 9, 10, 11]).length = ([7, 8, 9, 10, 11] : List ℕ).length - 2 ∧
    (∀ t ∈ fanTriangulate [7, 8, 9, 10, 11], t.length = 3) ∧
    (∀ x, x ∈ (fanTriangulate [7, 8, 9, 10, 11]).flatten ↔ x ∈ (7 : ℕ) :: [8, 9, 10, 11]) ∧
    fanTriangulate [7, 8, 9, 10, 11] = (List.range (([8, 9, 10, 11] : List ℕ).length - 1)).map
      (fun i => [7, ([8, 9, 10, 11] : List ℕ).getD i 0, ([8, 9, 10, 11] : List ℕ).getD (i + 1) 0]) ∧
    write_obj_file ⟨[], [(7 : ℕ) :: [8, 9, 10, 11]]⟩ idMat4 true =
      headerLine :: (([] : List BVert).map (fun v => vLine (mat4ApplyPoint idMat4 v.co)) ++
        ([] : List BVert).map (fun v => vnLine (normalizeV (mat3ApplyVec idMat4 v.normal))) ++
        (fanTriangulate ((7 : ℕ) :: [8, 9, 10, 11])).map fLine)) :=
  ⟨by decide, c3_fan_triangulation 7 [8, 9, 10, 11] [] idMat4 (by decide)⟩

theorem fanTriangulate_mem_subset {g t : List ℕ} (ht : t ∈ fanTriangulate g) :
    ∀ i ∈ t, i ∈ g := by
  by_cases h : g.length ≤ 3
  · rw [fanTriangulate.eq_def, if_pos h] at ht
    simp only [List.mem_singleton] at ht
    subst ht
    exact fun i hi => hi
  · cases g with
    | nil => simp at h
    | cons v0 rest =>
      have hk : 3 < (v0 :: rest).length := by omega
      rw [fanTriangulate_of_large hk] at ht
      intro i hi
      have hmem : i ∈ (fanPairs v0 rest).flatten :=
        List.mem_flatten.mpr ⟨t, ht, hi⟩
      have hrest : 2 ≤ rest.length := by
        simp only [List.length_cons] at h
        omega
      exact (fanPairs_flatten_mem v0 rest hrest i).mp hmem

/-- C2 counterexample: the decoder accepts `f 2//2` over a single-vertex
text and produces face index 1, outside `[0, vertexCount - 1] = [0, 0]` —
decoded indices are not range-checked. -/
theorem c2_counterexample :
    read_obj_file [("v 0 0 0").toList, ("f 2//2").toList] =
      some ⟨[⟨0, 0, 0⟩], [[(1 : ℤ)]]⟩ ∧
    ∃ dm, read_obj_file [("v 0 0 0").toList, ("f 2//2").toList] = some dm ∧
      ∃ f ∈ dm.faces, ∃ i ∈ f, ¬ (0 ≤ i ∧ i ≤ (dm.vertices.length : ℤ) - 1) := by
  constructor
  · decide
  · exact ⟨⟨[⟨0, 0, 0⟩], [[(1 : ℤ)]]⟩, by decide, [(1 : ℤ)], by decide, 1, by decide,
      by decide⟩

/-- C2 (amended): the encoder half holds as stated — every emitted face
index equals the internal 0-based index plus one, lies in
`[1, vertexCount]`, and is written as an `index//index` pair (the shape of
`fLine`); on the decoder side every decoded index equals the 1-based
source index minus one, but `read_obj_file` performs no range check, so
decoded indices need not lie in `[0, vertexCount - 1]` (see the
counterexample). -/
theorem c2_amended (m : BMesh) (matrix : Mat4) (triangulate : Bool)
    (hwf : ∀ f ∈ m.faces, ∀ i ∈ f, i < m.verts.length) :
    (∀ f ∈ objOutFaces m triangulate,
      fLine f ∈ write_obj_file m matrix triangulate ∧
      ∀ i ∈ f, 1 ≤ i + 1 ∧ i + 1 ≤ m.verts.length) ∧
    (∀ acc ks, readStep acc (fLine ks) =
      some (acc.1, acc.2 ++ [ks.map (fun k => (Int.ofNat k))])) := by
  constructor
  · intro f hf
    constructor
    · have hmem : fLine f ∈ (objOutFaces m triangulate).map fLine :=
        List.mem_map.mpr ⟨f, hf, rfl⟩
      rw [write_obj_file]
      simp only [List.mem_cons, List.mem_append]
      tauto
    · intro i hi
      refine ⟨by omega, ?_⟩
      have hilt : i < m.verts.length := by
        rw [objOutFaces] at hf
        by_cases htr : triangulate = true
        · rw [htr, if_pos rfl] at hf
          obtain ⟨g, hg, hfg⟩ := List.mem_flatMap.mp hf
          exact hwf g hg i (fanTriangulate_mem_subset hfg i hi)
        · rw [if_neg htr] at hf
          exact hwf f hf i hi
      omega
  · intro acc ks
    exact readStep_fLine ks acc

/-- Witness for C2 (amended) at the concrete one-triangle mesh. -/
theorem c2_amended_witness :
    (∀ f ∈ triMesh0.faces, ∀ i ∈ f, i < triMesh0.verts.length) ∧
    ((∀ f ∈ objOutFaces triMesh0 true,
      fLine f ∈ write_obj_file triMesh0 idMat4 true ∧
      ∀ i ∈ f, 1 ≤ i + 1 ∧ i + 1 ≤ triMesh0.verts.length) ∧
    (∀ acc ks, readStep acc (fLine ks) =
      some (acc.1, acc.2 ++ [ks.map (fun k => (Int.ofNat k))]))) :=
  ⟨by decide, c2_amended triMesh0 idMat4 true (by decide)⟩

/-- C4 counterexample: a perfectly readable text whose vertex line has
four fields but a non-numeric third component (`float()` raises) aborts
the whole decode — the following well-formed vertex line is lost, so
per-line degradation does not hold and decode failure is not limited to
unreadable streams. -/
theorem c4_counterexample :
    read_obj_file [("v 1.0 2.0 foo").toList, ("v 0 0 0").toList] = none := by
  decide

/-- C4 (amended): a vertex line with fewer than 4 whitespace-separated
fields is skipped without affecting the decode of the other lines; but a
readable line whose expected-numeric field fails to parse makes the whole
decode fail (return no mesh), so wholesale decode failure is not limited
to unreadable streams. -/
theorem c4_amended :
    (∀ pre post line, lineStartsWith line ['v', ' '] = true →
      (pyWords line).length < 4 →
      read_obj_file (pre ++ line :: post) = read_obj_file (pre ++ post)) ∧
    read_obj_file [("v x y z").toList] = none := by
  constructor
  · intro pre post line hv hshort
    rw [read_obj_file, read_obj_file, List.foldlM_append, List.foldlM_append]
    cases hpre : pre.foldlM readStep (([], []) : List Vec3 × List (List ℤ)) with
    | none => rfl
    | some acc =>
      show Option.map _ ((line :: post).foldlM readStep acc) =
        Option.map _ (post.foldlM readStep acc)
      rw [List.foldlM_cons, readStep_skip_short_v hv hshort acc]
      rfl
  · decide

/-- Witness for C4: the skip branch applied at the concrete short line
`v 1 2`. -/
theorem c4_amended_witness :
    (lineStartsWith (("v 1 2").toList) ['v', ' '] = true ∧
      (pyWords (("v 1 2").toList)).length < 4) ∧
    read_obj_file ([] ++ ("v 1 2").toList :: [("v 0 0 0").toList]) =
      read_obj_file ([] ++ [("v 0 0 0").toList]) :=
  ⟨⟨by decide, by decide⟩,
    c4_amended.1 [] [("v 0 0 0").toList] (("v 1 2").toList) (by decide) (by decide)⟩

/-- Result of a `subprocess.run` call as observed by the addon:
a completed process with exit code and captured output, a
`subprocess.TimeoutExpired`, or any other raised exception (for example a
`PermissionError` from a failed spawn). -/
inductive RunOutcome
  | completed (returncode : ℤ) (stdout stderr : List Char)
  | timedOut
  | raised
deriving DecidableEq

/-- The failure categories the stderr pattern matchers distinguish. -/
inductive FailCategory
  | missingLibraryDependency
  | noSuchFileOrDirectory
  | permissionDenied
  | unknown
deriving DecidableEq

/-- The shared-object stderr pattern. -/
def missingLibPat : List Char := ("cannot open shared object file").toList

/-- The permission-denied stderr pattern. -/
def permDeniedPat : List Char := ("Permission denied").toList

/-- The missing-file stderr pattern of the remesh classifier. -/
def noSuchFilePat : List Char := ("No such file or directory").toList

/-- The GUI/display initialization failure pattern. -/
def nanoguiPat : List Char := ("Cannot initialize NanoGUI").toList

/-- The reprojection failure pattern. -/
def reprojectPat : List Char := ("failed to reproject").toList

/-- Environment of one `InstantMeshesTestExecutable.execute` call: the
configured path, what `os.path.exists` and `os.access(..., X_OK)` would
report, and what `subprocess.run` would produce if reached. -/
structure ProbeEnv where
  executablePath : List Char
  pathExists : Bool
  pathExecutable : Bool
  run : RunOutcome
deriving DecidableEq

/-- Outcome reported by the capability probe. -/
inductive ProbeStatus
  | noPathSet
  | notFoundAtPath
  | notExecutable
  | working
  | failed (cat : FailCategory)
  | probeTimedOut
  | probeError
deriving DecidableEq

/-- The probe's non-zero-exit stderr matchers, first match wins: the
shared-object pattern, then `Permission denied`, else a generic failure
report (checked against the raw captured stderr). -/
def probeClassify (stderr : List Char) : FailCategory :=
  if hasSubstr missingLibPat stderr then .missingLibraryDependency
  else if hasSubstr permDeniedPat stderr then .permissionDenied
  else .unknown

/-- Models `InstantMeshesTestExecutable.execute`: three preflight checks
(empty path, existence, executability) before `subprocess.run --help`;
exit code 0 reports success, a non-zero exit is classified from stderr,
timeout and other exceptions have their own handlers. The second
component records whether a process spawn was attempted. -/
def testExecutable (env : ProbeEnv) : ProbeStatus × Bool :=
  if env.executablePath = [] then (.noPathSet, false)
  else if env.pathExists = false then (.notFoundAtPath, false)
  else if env.pathExecutable = false then (.notExecutable, false)
  else
    match env.run with
    | .completed rc _ err =>
      if rc = 0 then (.working, true) else (.failed (probeClassify err), true)
    | .timedOut => (.probeTimedOut, true)
    | .raised => (.probeError, true)

/-- Environment of one `InstantMeshesRemeshOperator.execute` call.
`fileInfo` is the output of the best-effort `file` metadata probe
(`none` models that probe raising); `outputExists` is what
`os.path.exists(output_path)` reports after the run; `importOk` is
whether `read_obj_file` hands back an object. -/
structure RemeshEnv where
  executablePath : List Char
  pathExists : Bool
  pathExecutable : Bool
  run : RunOutcome
  fileInfo : Option (List Char)
  outputExists : Bool
  importOk : Bool
deriving DecidableEq

/-- Outcome of the remesh operator, one constructor per report branch. -/
inductive RemeshStatus
  | execNotFound
  | runFailed (cat : FailCategory)
  | outputMissingGui
  | outputMissingReproject
  | outputMissingOther
  | importFailed
  | finished
  | errException
deriving DecidableEq

/-- The placeholder text used when stderr is empty. -/
def unknownErrMsg : List Char := ("Unknown error (no error message returned)").toList

/-- Lowercasing, models `str.lower()`. -/
def pyLower (cs : List Char) : List Char := cs.map Char.toLower

/-- Enrichment text for a shell-script `file` result. -/
def shellScriptMsg (path : List Char) : List Char :=
  ("The executable appears to be a shell script. Make sure it has executable permissions: chmod +x ").toList
    ++ path

/-- Enrichment text for a 32-bit ELF `file` result. -/
def bit32Msg : List Char :=
  ("The executable is a 32-bit binary but you are likely on a 64-bit system. You need to install 32-bit compatibility libraries: sudo apt install lib32stdc++6 lib32z1").toList

/-- Enrichment text for a 64-bit ELF `file` result. -/
def bit64Msg : List Char :=
  ("The executable is a 64-bit binary but failed silently. This usually indicates missing dependencies. Try: sudo apt install libgl1-mesa-glx libglu1-mesa zenity libxrandr-dev libxinerama-dev libxcursor-dev libxi-dev").toList

/-- Enrichment text for a plain-text `file` result. -/
def textFileMsg : List Char :=
  ("The file appears to be a text file, not an executable. Make sure you have the correct path to the Instant Meshes binary.").toList

/-- Models the `error_msg` construction of the non-zero-exit branch:
`error_msg = stderr.strip()`; when that is empty, the generic
unknown-error text, best-effort enriched from the `file` probe output
(`shell script`, `elf` with 32/64-bit, `text` checks, in source order). -/
def buildErrorMsg (executablePath stderr : List Char)
    (fileInfo : Option (List Char)) : List Char :=
  let m := pyStrip stderr
  if m = [] then
    match fileInfo with
    | none => unknownErrMsg
    | some info =>
      if hasSubstr (("shell script").toList) (pyLower info) then shellScriptMsg executablePath
      else if hasSubstr (("elf").toList) (pyLower info) then
        if hasSubstr (("32-bit").toList) info && !(hasSubstr (("64-bit").toList) info) then
          bit32Msg
        else if hasSubstr (("64-bit").toList) info then bit64Msg
        else unknownErrMsg
      else if hasSubstr (("text").toList) (pyLower info) then textFileMsg
      else unknownErrMsg
  else m

/-- The remesh operator's if/elif chain over `error_msg`, first match
wins: shared-object, then missing-file, then permission-denied patterns,
otherwise the message is surfaced unclassified. -/
def classifyErrorMsg (msg : List Char) : FailCategory :=
  if hasSubstr missingLibPat msg then .missingLibraryDependency
  else if hasSubstr noSuchFilePat msg then .noSuchFileOrDirectory
  else if hasSubstr permDeniedPat msg then .permissionDenied
  else .unknown

/-- Body of the remesh `try` block from `subprocess.run` onward: non-zero
exit classifies stderr (after enrichment); zero exit with a missing
output file sub-classifies by the NanoGUI then reprojection matchers;
otherwise the decoded import decides success. `TimeoutExpired` and other
exceptions land in the operator's catch-all handler. -/
def remeshBody (env : RemeshEnv) : RemeshStatus :=
  match env.run with
  | .completed rc out err =>
    if rc ≠ 0 then
      .runFailed (classifyErrorMsg (buildErrorMsg env.executablePath err env.fileInfo))
    else if env.outputExists = false then
      if hasSubstr nanoguiPat out || hasSubstr nanoguiPat err then .outputMissingGui
      else if hasSubstr reprojectPat out || hasSubstr reprojectPat err then
        .outputMissingReproject
      else .outputMissingOther
    else if env.importOk then .finished
    else .importFailed
  | .timedOut => .errException
  | .raised => .errException

/-- Result of one remesh orchestration: the reported status, whether a
process spawn was attempted, and the files left in the scratch location
after the call returns. -/
structure RemeshResult where
  status : RemeshStatus
  spawnAttempted : Bool
  scratchAfter : List (List Char)
deriving DecidableEq

/-- Models `tempfile.TemporaryDirectory.__exit__`: the directory and
every file inside it are removed on every exit path of the `with` block,
normal or exceptional — the Python standard-library contract for the
context manager. -/
def tempDirCleanup (files : List (List Char)) : List (List Char) :=
  files.filter (fun _ => false)

/-- Models `InstantMeshesRemeshOperator.execute`: the preflight checks
only that the configured path is non-empty and exists (there is no
`os.access` executability check on this path); inside
`with tempfile.TemporaryDirectory()` the scratch `input.obj` is written,
`subprocess.run` is reached unconditionally (recorded in
`spawnAttempted`), the outcome is classified by `remeshBody`, and the
context-manager exit removes every scratch file. -/
def remeshExecute (env : RemeshEnv) : RemeshResult :=
  if env.executablePath = [] ∨ env.pathExists = false then
    ⟨.execNotFound, false, []⟩
  else
    let scratch := ("input.obj").toList ::
      (if env.outputExists then [("output.obj").toList] else [])
    ⟨remeshBody env, true, tempDirCleanup scratch⟩

theorem dropWhile_keeps_substr (p : Char → Bool) (pat : List Char) (c : Char)
    (r : List Char) (hpatc : pat = c :: r) (hpc : p c = false) :
    ∀ s, hasSubstr pat s = true → hasSubstr pat (s.dropWhile p) = true := by
  intro s hs
  rw [hasSubstr_iff] at hs ⊢
  obtain ⟨a, b, rfl⟩ := hs
  induction a with
  | nil =>
    refine ⟨[], b, ?_⟩
    subst hpatc
    simp only [List.nil_append, List.cons_append, List.dropWhile_cons, hpc,
      Bool.false_eq_true, if_false]
  | cons a0 a' ih =>
    by_cases hpa : p a0 = true
    · obtain ⟨x, y, hxy⟩ := ih
      refine ⟨x, y, ?_⟩
      rw [← hxy]
      simp only [List.cons_append, List.dropWhile_cons, hpa, if_true]
    · refine ⟨a0 :: a', b, ?_⟩
      simp only [List.cons_append, List.dropWhile_cons, hpa, Bool.false_eq_true, if_false]

theorem reverse_substr {pat s : List Char} (h : hasSubstr pat s = true) :
    hasSubstr pat.reverse s.reverse = true := by
  rw [hasSubstr_iff] at h ⊢
  obtain ⟨a, b, rfl⟩ := h
  refine ⟨b.reverse, a.reverse, ?_⟩
  simp [List.reverse_append]

theorem pyStrip_keeps_substr (pat : List Char) (c1 : Char) (r1 : List Char)
    (c2 : Char) (r2 : List Char)
    (h1 : pat = c1 :: r1) (hc1 : isSpaceChar c1 = false)
    (h2 : pat.reverse = c2 :: r2) (hc2 : isSpaceChar c2 = false) :
    ∀ s, hasSubstr pat s = true → hasSubstr pat (pyStrip s) = true := by
  intro s hs
  rw [pyStrip]
  have hs1 := dropWhile_keeps_substr isSpaceChar pat c1 r1 h1 hc1 s hs
  have hs2 := reverse_substr hs1
  have hs3 := dropWhile_keeps_substr isSpaceChar pat.reverse c2 r2 h2 hc2 _ hs2
  have hs4 := reverse_substr hs3
  simpa using hs4

theorem substr_ne_nil {pat s : List Char} (hpat : pat ≠ [])
    (h : hasSubstr pat s = true) : s ≠ [] := by
  rw [hasSubstr_iff] at h
  obtain ⟨a, b, habs⟩ := h
  intro hnil
  rw [hnil] at habs
  have h1 := List.append_eq_nil.mp habs.symm
  exact hpat (List.append_eq_nil.mp h1.1).2

theorem classify_buildErrorMsg_missingLib (path err : List Char)
    (fi : Option (List Char)) (hsub : hasSubstr missingLibPat err = true) :
    classifyErrorMsg (buildErrorMsg path err fi) = .missingLibraryDependency := by
  have hstrip : hasSubstr missingLibPat (pyStrip err) = true :=
    pyStrip_keeps_substr missingLibPat 'c' (("annot open shared object file").toList)
      'e' (("lif tcejbo derahs nepo tonnac").toList)
      (by decide) (by decide) (by decide) (by decide) err hsub
  have hne : pyStrip err ≠ [] := substr_ne_nil (by decide) hstrip
  rw [buildErrorMsg.eq_def]
  simp only [hne, if_false]
  rw [classifyErrorMsg, if_pos hstrip]

theorem remeshBody_completed (env : RemeshEnv) (rc : ℤ) (out err : List Char)
    (h : env.run = RunOutcome.completed rc out err) :
    remeshBody env =
      (if rc ≠ 0 then
        RemeshStatus.runFailed
          (classifyErrorMsg (buildErrorMsg env.executablePath err env.fileInfo))
      else if env.outputExists = false then
        if hasSubstr nanoguiPat out || hasSubstr nanoguiPat err then
          RemeshStatus.outputMissingGui
        else if hasSubstr reprojectPat out || hasSubstr reprojectPat err then
          RemeshStatus.outputMissingReproject
        else RemeshStatus.outputMissingOther
      else if env.importOk then RemeshStatus.finished
      else RemeshStatus.importFailed) := by
  rw [remeshBody.eq_def, h]

/-- An existing but non-executable configured path, with the spawn
attempt raising (`PermissionError`). -/
def envC5 : RemeshEnv := ⟨("im").toList, true, false, .raised, none, false, false⟩

/-- C5 counterexample: the remesh run's preflight does not check
executability — with a non-empty, existing, non-executable path the
spawn is attempted (and its failure lands in the generic exception
handler) instead of the call failing before any process is spawned. -/
theorem c5_counterexample :
    envC5.pathExecutable = false ∧
    (remeshExecute envC5).spawnAttempted = true ∧
    (remeshExecute envC5).status = RemeshStatus.errException := by
  refine ⟨rfl, ?_, ?_⟩ <;> decide

/-- C5 (amended): the capability probe checks all three preconditions
(non-empty path, existence, executability by the current user) and fails
without spawning a process; the remesh run checks only non-emptiness and
existence before spawning — a non-executable existing file reaches the
spawn attempt there (see the counterexample). -/
theorem c5_amended (penv : ProbeEnv) (renv : RemeshEnv) :
    (penv.executablePath = [] ∨ penv.pathExists = false ∨ penv.pathExecutable = false →
      (testExecutable penv).2 = false ∧
      ((testExecutable penv).1 = ProbeStatus.noPathSet ∨
        (testExecutable penv).1 = ProbeStatus.notFoundAtPath ∨
        (testExecutable penv).1 = ProbeStatus.notExecutable)) ∧
    (renv.executablePath = [] ∨ renv.pathExists = false →
      (remeshExecute renv).spawnAttempted = false ∧
      (remeshExecute renv).status = RemeshStatus.execNotFound) := by
  constructor
  · intro h
    rw [testExecutable]
    by_cases h1 : penv.executablePath = []
    · simp [h1]
    · rw [if_neg h1]
      by_cases h2 : penv.pathExists = false
      · simp [h2]
      · rw [if_neg h2]
        have h3 : penv.pathExecutable = false := by tauto
        simp [h3]
  · intro h
    rw [remeshExecute, if_pos h]
    exact ⟨rfl, rfl⟩

/-- A probe environment with no path configured. -/
def envC5p : ProbeEnv := ⟨[], false, false, .raised⟩

/-- A remesh environment with no path configured. -/
def envC5r : RemeshEnv := ⟨[], false, false, .raised, none, false, false⟩

/-- Witness for C5 (amended) at concrete no-path environments. -/
theorem c5_amended_witness :
    ((envC5p.executablePath = [] ∨ envC5p.pathExists = false ∨
        envC5p.pathExecutable = false) ∧
      (testExecutable envC5p).2 = false ∧
      ((testExecutable envC5p).1 = ProbeStatus.noPathSet ∨
        (testExecutable envC5p).1 = ProbeStatus.notFoundAtPath ∨
        (testExecutable envC5p).1 = ProbeStatus.notExecutable)) ∧
    ((envC5r.executablePath = [] ∨ envC5r.pathExists = false) ∧
      (remeshExecute envC5r).spawnAttempted = false ∧
      (remeshExecute envC5r).status = RemeshStatus.execNotFound) :=
  ⟨⟨by decide, (c5_amended envC5p envC5r).1 (by decide)⟩,
   ⟨by decide, (c5_amended envC5p envC5r).2 (by decide)⟩⟩

/-- C6: a remesh run returning exit code 0 whose declared output file
does not exist classifies as the distinct output-missing failure — never
success and never any run-failure category such as Unknown — and is
sub-classified by the same stdout/stderr pattern matchers
(GUI/display initialization failure, then reprojection failure). -/
theorem c6_output_missing (env : RemeshEnv) (out err : List Char)
    (h1 : env.executablePath ≠ []) (h2 : env.pathExists = true)
    (h3 : env.run = RunOutcome.completed 0 out err)
    (h4 : env.outputExists = false) :
    (remeshExecute env).status =
      (if hasSubstr nanoguiPat out || hasSubstr nanoguiPat err then
        RemeshStatus.outputMissingGui
      else if hasSubstr reprojectPat out || hasSubstr reprojectPat err then
        RemeshStatus.outputMissingReproject
      else RemeshStatus.outputMissingOther) ∧
    (∀ cat, (remeshExecute env).status ≠ RemeshStatus.runFailed cat) ∧
    (remeshExecute env).status ≠ RemeshStatus.finished := by
  have hpre : ¬ (env.executablePath = [] ∨ env.pathExists = false) := by
    rintro (hc | hc)
    · exact h1 hc
    · rw [h2] at hc
      exact absurd hc (by decide)
  have hst : (remeshExecute env).status =
      (if hasSubstr nanoguiPat out || hasSubstr nanoguiPat err then
        RemeshStatus.outputMissingGui
      else if hasSubstr reprojectPat out || hasSubstr reprojectPat err then
        RemeshStatus.outputMissingReproject
      else RemeshStatus.outputMissingOther) := by
    rw [remeshExecute, if_neg hpre]
    show remeshBody env = _
    rw [remeshBody_completed env 0 out err h3]
    rw [if_neg (by simp), if_pos h4]
  have hmem : (remeshExecute env).status = RemeshStatus.outputMissingGui ∨
      (remeshExecute env).status = RemeshStatus.outputMissingReproject ∨
      (remeshExecute env).status = RemeshStatus.outputMissingOther := by
    rw [hst]
    split
    · exact Or.inl rfl
    · split
      · exact Or.inr (Or.inl rfl)
      · exact Or.inr (Or.inr rfl)
  refine ⟨hst, ?_, ?_⟩
  · intro cat hcontra
    rcases hmem with h | h | h <;> rw [h] at hcontra <;> exact RemeshStatus.noConfusion hcontra
  · intro hcontra
    rcases hmem with h | h | h <;> rw [h] at hcontra <;> exact RemeshStatus.noConfusion hcontra

/-- An environment whose run exits 0 printing the NanoGUI failure but
creates no output file. -/
def envC6 : RemeshEnv :=
  ⟨("im").toList, true, true, .completed 0 nanoguiPat [], none, false, true⟩

/-- Witness for C6 at a concrete zero-exit, missing-output environment. -/
theorem c6_output_missing_witness :
    (envC6.executablePath ≠ [] ∧ envC6.pathExists = true ∧
      envC6.run = RunOutcome.completed 0 nanoguiPat [] ∧ envC6.outputExists = false) ∧
    ((remeshExecute envC6).status =
      (if hasSubstr nanoguiPat nanoguiPat || hasSubstr nanoguiPat [] then
        RemeshStatus.outputMissingGui
      else if hasSubstr reprojectPat nanoguiPat || hasSubstr reprojectPat [] then
        RemeshStatus.outputMissingReproject
      else RemeshStatus.outputMissingOther) ∧
    (∀ cat, (remeshExecute envC6).status ≠ RemeshStatus.runFailed cat) ∧
    (remeshExecute envC6).status ≠ RemeshStatus.finished) :=
  ⟨⟨by decide, by decide, by decide, by decide⟩,
    c6_output_missing envC6 nanoguiPat [] (by decide) (by decide) (by decide) (by decide)⟩

/-- A probe environment whose run exits 0 while stderr carries the
shared-object pattern. -/
def envC7 : ProbeEnv := ⟨("im").toList, true, true, .completed 0 [] missingLibPat⟩

/-- C7 counterexample: with exit code 0 and a stderr containing
`cannot open shared object file`, the probe reports success — stderr is
only inspected on a non-zero exit code, so the assigned category is not
MissingLibraryDependency and the claim's "regardless of the process's
exit code" fails. -/
theorem c7_counterexample :
    hasSubstr missingLibPat missingLibPat = true ∧
    (testExecutable envC7).1 = ProbeStatus.working ∧
    (testExecutable envC7).1 ≠ ProbeStatus.failed FailCategory.missingLibraryDependency := by
  refine ⟨?_, ?_, ?_⟩ <;> decide

/-- C7 (amended): for every outcome with a non-zero exit code whose
captured stderr contains `cannot open shared object file`, both the
probe and the remesh run classify MissingLibraryDependency; with a zero
exit code the stderr is not inspected (the probe reports success and the
remesh run proceeds to the output check), so the pattern does not force
the category regardless of exit code. -/
theorem c7_amended (out err : List Char) (rc : ℤ) (penv : ProbeEnv)
    (renv : RemeshEnv)
    (hp1 : penv.executablePath ≠ []) (hp2 : penv.pathExists = true)
    (hp3 : penv.pathExecutable = true)
    (hp4 : penv.run = RunOutcome.completed rc out err)
    (hr1 : renv.executablePath ≠ []) (hr2 : renv.pathExists = true)
    (hr3 : renv.run = RunOutcome.completed rc out err)
    (hrc : rc ≠ 0) (hsub : hasSubstr missingLibPat err = true) :
    (testExecutable penv).1 = ProbeStatus.failed FailCategory.missingLibraryDependency ∧
    (remeshExecute renv).status =
      RemeshStatus.runFailed FailCategory.missingLibraryDependency := by
  constructor
  · rw [testExecutable,
      if_neg hp1,
      if_neg (by rw [hp2]; decide),
      if_neg (by rw [hp3]; decide),
      hp4]
    simp only [if_neg hrc]
    rw [probeClassify, if_pos hsub]
  · have hpre : ¬ (renv.executablePath = [] ∨ renv.pathExists = false) := by
      rintro (hc | hc)
      · exact hr1 hc
      · rw [hr2] at hc
        exact absurd hc (by decide)
    rw [remeshExecute, if_neg hpre]
    show remeshBody renv = _
    rw [remeshBody_completed renv rc out err hr3, if_pos hrc,
      classify_buildErrorMsg_missingLib renv.executablePath err renv.fileInfo hsub]

/-- A probe environment failing with exit code 1 and the shared-object
pattern on stderr. -/
def envC7p : ProbeEnv := ⟨("im").toList, true, true, .completed 1 [] missingLibPat⟩

/-- A remesh environment failing the same way. -/
def envC7r : RemeshEnv :=
  ⟨("im").toList, true, true, .completed 1 [] missingLibPat, none, false, false⟩

/-- Witness for C7 (amended) at concrete non-zero-exit environments. -/
theorem c7_amended_witness :
    (envC7p.run = RunOutcome.completed 1 [] missingLibPat ∧
      envC7r.run = RunOutcome.completed 1 [] missingLibPat ∧
      (1 : ℤ) ≠ 0 ∧ hasSubstr missingLibPat missingLibPat = true) ∧
    ((testExecutable envC7p).1 = ProbeStatus.failed FailCategory.missingLibraryDependency ∧
      (remeshExecute envC7r).status =
        RemeshStatus.runFailed FailCategory.missingLibraryDependency) :=
  ⟨⟨by decide, by decide, by decide, by decide⟩,
    c7_amended [] missingLibPat 1 envC7p envC7r (by decide) (by decide) (by decide)
      (by decide) (by decide) (by decide) (by decide) (by decide) (by decide)⟩

/-- C8: scratch cleanup — for every orchestration environment and on
every exit path (preflight failure, classified failure, exception, or
success), no file remains afterwards in the scratch location used for
the run: the scratch input and output OBJ files never outlive the
orchestration. -/
theorem c8_scratch_cleanup (env : RemeshEnv) :
    (remeshExecute env).scratchAfter = [] := by
  have hclean : ∀ files, tempDirCleanup files = [] := by
    intro files
    induction files with
    | nil => rfl
    | cons f t ih =>
      rw [tempDirCleanup] at ih ⊢
      rw [List.filter_cons]
      simp only [Bool.false_eq_true, if_false]
      exact ih
  rw [remeshExecute]
  split
  · rfl
  · exact hclean _

end InstantMeshes
